import Mathlib

/-!
Shallow embedding of the date/event extraction engine of the dou-monitor
repository (file src/extraction/cronograma_parser.py) and proofs about it.

The Python code works on `str`; we embed strings as `List Char` (Python's
`len`/indexing/slicing are code-point based, exactly like `List Char`).
Python regular expressions are embedded in two ways:
 - a small backtracking regex engine (`RE`, `reMatch`, `reSub`) used for the
   `re.sub` normalisation passes, whose patterns are transliterated node by
   node from the pattern strings in the source;
 - direct deterministic matchers for `DATE_PATTERN`, the keyword patterns,
   `re.findall` of a date token and the cronograma-section search, each of
   which is annotated with the exact pattern it implements.
All recursion is structural, so every definition evaluates inside the kernel
(`decide`/`rfl`).
-/

/-- Python whitespace test (`\s` in `re`, `str.strip`, `str.isspace`) for the
character repertoire relevant here: ASCII whitespace, the C1 separators,
NEL (U+0085) and NBSP (U+00A0). -/
def pyIsSpace (c : Char) : Bool :=
  decide (c.toNat = 32 ∨ c.toNat = 9 ∨ c.toNat = 10 ∨ c.toNat = 13 ∨
    c.toNat = 11 ∨ c.toNat = 12 ∨ (28 ≤ c.toNat ∧ c.toNat ≤ 31) ∨
    c.toNat = 133 ∨ c.toNat = 160)

/-- Python `str.lower` on one character, for ASCII and the Latin-1 letters
(À–Þ except ×) that occur in Portuguese text; other characters are
unchanged. -/
def pyLowerChar (c : Char) : Char :=
  if 65 ≤ c.toNat ∧ c.toNat ≤ 90 then Char.ofNat (c.toNat + 32)
  else if 192 ≤ c.toNat ∧ c.toNat ≤ 222 ∧ c.toNat ≠ 215 then Char.ofNat (c.toNat + 32)
  else c

/-- Python `str.lower`. -/
def pyLower (l : List Char) : List Char := l.map pyLowerChar

/-- Case-insensitive character comparison (re.IGNORECASE). -/
def ciEq (a b : Char) : Bool := pyLowerChar a == pyLowerChar b

/-- Membership of a character in a character class, case-insensitively
(for classes such as `[çc]` under re.IGNORECASE). -/
def ciIn (s : String) (c : Char) : Bool := s.data.any (fun d => ciEq c d)

/-- ASCII digit test (`\d` in `re` restricted to ASCII input, and the
digit checks of `strptime`). -/
def isDigitCh (c : Char) : Bool := decide (48 ≤ c.toNat ∧ c.toNat ≤ 57)

/-- Numeric value of an ASCII digit character. -/
def digitVal (c : Char) : Nat := c.toNat - 48

/-- Python `str.startswith` (case-sensitive): second list is a prefix of the
first. -/
def pyStartsWith : List Char → List Char → Bool
  | _, [] => true
  | [], _ :: _ => false
  | c :: cs, p :: ps => c == p && pyStartsWith cs ps

/-- Case-insensitive prefix test (a literal under re.IGNORECASE). -/
def pyStartsWithCI : List Char → List Char → Bool
  | _, [] => true
  | [], _ :: _ => false
  | c :: cs, p :: ps => ciEq c p && pyStartsWithCI cs ps

/-- Python substring containment `needle in haystack`. -/
def containsSub (needle : List Char) : List Char → Bool
  | [] => needle.isEmpty
  | c :: cs => pyStartsWith (c :: cs) needle || containsSub needle cs

/-- Python `str.strip()` (strip whitespace from both ends). -/
def pyStrip (l : List Char) : List Char :=
  ((l.dropWhile pyIsSpace).reverse.dropWhile pyIsSpace).reverse

/-- Python slice `l[a:b]` for `0 ≤ a ≤ b` (both indices already clamped to
the list, which `List.take`/`List.drop` do for free). -/
def pySlice (l : List Char) (a b : Nat) : List Char := (l.take b).drop a

/-- Skip a maximal run of whitespace (`\s*` when the next pattern element
cannot match a whitespace character, which holds at every use site). -/
def skipWS (l : List Char) : List Char := l.dropWhile pyIsSpace

/-- Consume one optional character case-insensitively (a trailing `s?` in a
pattern whose continuation cannot match `s`, or end of pattern). -/
def consumeOptCI (l : List Char) (c : Char) : List Char :=
  match l with
  | d :: ds => if ciEq d c then ds else l
  | [] => l

/-- Helper for `pySplit`: `skip` characters still to be jumped over after a
separator hit, `acc` the (reversed) current field. Mirrors `str.split(sep)`
for a non-empty separator. -/
def pySplitGo (sep : List Char) : Nat → List Char → List Char → List (List Char)
  | _, acc, [] => [acc.reverse]
  | n + 1, acc, _ :: cs => pySplitGo sep n acc cs
  | 0, acc, c :: cs =>
    if pyStartsWith (c :: cs) sep then
      acc.reverse :: pySplitGo sep (sep.length - 1) [] cs
    else
      pySplitGo sep 0 (c :: acc) cs

/-- Python `str.split(sep)` for a non-empty separator. -/
def pySplit (sep : List Char) (l : List Char) : List (List Char) :=
  pySplitGo sep 0 [] l

/-- Days in a month, with the Gregorian leap rule, as validated by
`datetime.date`. -/
def daysInMonth (y m : Nat) : Nat :=
  if m = 2 then (if (y % 4 = 0 ∧ y % 100 ≠ 0) ∨ y % 400 = 0 then 29 else 28)
  else if m = 4 ∨ m = 6 ∨ m = 9 ∨ m = 11 then 30
  else 31

/-- Parse a day field exactly as `strptime`'s `%d`
(regex `3[01]|[12]\d|0[1-9]|[1-9]`, i.e. one or two digits with value
1–31; a two-digit group out of that range cannot fall back to the one-digit
alternative because the following format character `/` cannot match a
digit, so returning `none` is faithful). -/
def parseDayTok : List Char → Option (Nat × List Char)
  | c1 :: c2 :: rest =>
    if isDigitCh c1 && isDigitCh c2 then
      let v := digitVal c1 * 10 + digitVal c2
      if 1 ≤ v ∧ v ≤ 31 then some (v, rest) else none
    else if isDigitCh c1 && decide (1 ≤ digitVal c1) then some (digitVal c1, c2 :: rest)
    else none
  | [c1] => if isDigitCh c1 && decide (1 ≤ digitVal c1) then some (digitVal c1, []) else none
  | [] => none

/-- Parse a month field exactly as `strptime`'s `%m`
(regex `1[0-2]|0[1-9]|[1-9]`). -/
def parseMonthTok : List Char → Option (Nat × List Char)
  | c1 :: c2 :: rest =>
    if isDigitCh c1 && isDigitCh c2 then
      let v := digitVal c1 * 10 + digitVal c2
      if 1 ≤ v ∧ v ≤ 12 then some (v, rest) else none
    else if isDigitCh c1 && decide (1 ≤ digitVal c1) then some (digitVal c1, c2 :: rest)
    else none
  | [c1] => if isDigitCh c1 && decide (1 ≤ digitVal c1) then some (digitVal c1, []) else none
  | [] => none

/-- Parse a year field exactly as `strptime`'s `%Y` (regex `\d\d\d\d`). -/
def parseYearTok : List Char → Option (Nat × List Char)
  | c1 :: c2 :: c3 :: c4 :: rest =>
    if isDigitCh c1 && isDigitCh c2 && isDigitCh c3 && isDigitCh c4 then
      some (((digitVal c1 * 10 + digitVal c2) * 10 + digitVal c3) * 10 + digitVal c4, rest)
    else none
  | _ => none

/-- Render a number as two zero-padded decimal digits. -/
def pad2 (n : Nat) : List Char := [Char.ofNat (48 + n / 10 % 10), Char.ofNat (48 + n % 10)]

/-- Render a number as four zero-padded decimal digits. -/
def pad4 (n : Nat) : List Char :=
  [Char.ofNat (48 + n / 1000 % 10), Char.ofNat (48 + n / 100 % 10),
   Char.ofNat (48 + n / 10 % 10), Char.ofNat (48 + n % 10)]

/-- Embedding of `to_iso`: `datetime.strptime(date_str.strip(), "%d/%m/%Y")`
followed by `.date().isoformat()`; `None` on any parse or calendar error
(year 0 is below `datetime.MINYEAR`). -/
def to_iso (raw : List Char) : Option String :=
  let s := pyStrip raw
  match parseDayTok s with
  | none => none
  | some (d, r1) =>
    match r1 with
    | '/' :: r2 =>
      match parseMonthTok r2 with
      | none => none
      | some (m, r3) =>
        match r3 with
        | '/' :: r4 =>
          match parseYearTok r4 with
          | some (y, []) =>
            if 1 ≤ y ∧ d ≤ daysInMonth y m then
              some (String.mk (pad4 y ++ '-' :: pad2 m ++ '-' :: pad2 d))
            else none
          | _ => none
        | _ => none
    | _ => none

/-- Matcher for one date token `\d{2}/\d{2}/\d{4}`; on success returns the
input minus the 10 matched characters. -/
def matchDateTok : List Char → Option (List Char)
  | c1 :: c2 :: s1 :: c3 :: c4 :: s2 :: c5 :: c6 :: c7 :: c8 :: rest =>
    if isDigitCh c1 && isDigitCh c2 && s1 == '/' && isDigitCh c3 && isDigitCh c4 &&
       s2 == '/' && isDigitCh c5 && isDigitCh c6 && isDigitCh c7 && isDigitCh c8 then
      some rest
    else none
  | _ => none

/-- Does a date token start here? (`re.findall(r'\d{2}/\d{2}/\d{4}', ...)`
match test at one position.) -/
def isDateTokenAt (l : List Char) : Bool := (matchDateTok l).isSome

/-- Helper for `reFindAllDates`: `skip` characters remain to be jumped over
after a hit (non-overlapping scan). -/
def findAllGo : Nat → List Char → List (List Char)
  | _, [] => []
  | n + 1, _ :: cs => findAllGo n cs
  | 0, c :: cs =>
    if isDateTokenAt (c :: cs) then (c :: cs).take 10 :: findAllGo 9 cs
    else findAllGo 0 cs

/-- Embedding of `re.findall(r'\d{2}/\d{2}/\d{4}', block)`: all
non-overlapping date tokens, left to right. -/
def reFindAllDates (l : List Char) : List (List Char) := findAllGo 0 l

/-- Embedding of `parse_date_block`. The "Entre" branch with 0 dates and
the " a " branch with a number of parts other than 2 both fall through to
the single-date case, exactly as in the source. -/
def parse_date_block (raw : List Char) : Option String × Option String :=
  let b := pyStrip raw
  let entreResult : Option (Option String × Option String) :=
    if pyStartsWith (pyLower b) "entre".data then
      match reFindAllDates b with
      | [d1, d2] => some (to_iso d1, to_iso d2)
      | [d1] => some (to_iso d1, none)
      | _ => none
    else none
  match entreResult with
  | some r => r
  | none =>
    if containsSub " a ".data b then
      match pySplit " a ".data b with
      | [p1, p2] => (to_iso p1, to_iso p2)
      | _ => (to_iso b, none)
    else (to_iso b, none)

/-- Embedding of `classify_event`: case-insensitive substring containment
in fixed priority order, first match wins. -/
def classify_event (event_text : List Char) : String :=
  let e := pyLower event_text
  if containsSub "isen".data e || containsSub "isençã".data e || containsSub "isenc".data e then
    "isencao"
  else if containsSub "inscri".data e || containsSub "inscric".data e then
    "inscricao"
  else if ["prova", "aplicac", "aplicaç", "realizac", "realizaç"].any
      (fun w => containsSub w.data e) then
    "prova"
  else if containsSub "resultado".data e then "resultado"
  else if containsSub "recurso".data e then "recurso"
  else if containsSub "publica".data e then "publicacao"
  else "outro"

/-! ### A small backtracking regex engine

Used to embed the `re.sub` passes of `normalize_text` (and the
`Nota Informativa` cleanup). It supports exactly the constructs those
patterns use: literals (optionally case-insensitive), single-character
classes, greedy and lazy counted repetition of a character class,
sequencing, alternation, greedy option and capturing groups. Exploration
order matches CPython's: alternatives left to right, greedy repetition
longest first, lazy repetition shortest first, so the first accepting path
found is the one CPython reports. -/

/-- Regex abstract syntax. `rep p lo hi lz`: between `lo` and `hi`
(unbounded if `none`) characters of class `p`, lazy if `lz`. -/
inductive RE where
  | lit (s : List Char) (ci : Bool)
  | cls (p : Char → Bool)
  | rep (p : Char → Bool) (lo : Nat) (hi : Option Nat) (lz : Bool)
  | seq (a b : RE)
  | alt (a b : RE)
  | opt (a : RE)
  | group (n : Nat) (a : RE)

/-- Captured groups: group number paired with captured characters, most
recently closed group first. -/
abbrev Caps := List (Nat × List Char)

/-- Continuation type of the matcher: remaining input and captures so far. -/
abbrev ReCont := List Char → Caps → Option (List Char × Caps)

/-- Greedy repetition: try consuming `n` class characters first, then
backtrack down to `lo`. The caller guarantees the first `n` characters of
`l` satisfy the class. -/
def repDesc (lo : Nat) (l : List Char) (caps : Caps) (k : ReCont) : Nat → Option (List Char × Caps)
  | 0 => if lo = 0 then k l caps else none
  | n + 1 =>
    if n + 1 < lo then none
    else
      match k (l.drop (n + 1)) caps with
      | some r => some r
      | none => repDesc lo l caps k n

/-- Lazy repetition: try consuming `n` characters, then grow while `budget`
allows. The caller guarantees enough class characters are available. -/
def repAsc (l : List Char) (caps : Caps) (k : ReCont) (n : Nat) : Nat → Option (List Char × Caps)
  | 0 => k (l.drop n) caps
  | b + 1 =>
    match k (l.drop n) caps with
    | some r => some r
    | none => repAsc l caps k (n + 1) b

/-- The matcher, continuation-passing. `reMatch re l caps k` tries to match
`re` at the head of `l`, calling `k` with the rest; backtracking re-invokes
`k` at every viable split, in CPython's exploration order. -/
def reMatch : RE → List Char → Caps → ReCont → Option (List Char × Caps)
  | .lit s ci, l, caps, k =>
    if ci then (if pyStartsWithCI l s then k (l.drop s.length) caps else none)
    else (if pyStartsWith l s then k (l.drop s.length) caps else none)
  | .cls p, l, caps, k =>
    match l with
    | c :: cs => if p c then k cs caps else none
    | [] => none
  | .rep p lo hi lz, l, caps, k =>
    let run := (l.takeWhile p).length
    let maxN := min run (hi.getD run)
    if run < lo then none
    else if lz then repAsc l caps k lo (maxN - lo)
    else repDesc lo l caps k maxN
  | .seq a b, l, caps, k => reMatch a l caps (fun l2 c2 => reMatch b l2 c2 k)
  | .alt a b, l, caps, k =>
    match reMatch a l caps k with
    | some r => some r
    | none => reMatch b l caps k
  | .opt a, l, caps, k =>
    match reMatch a l caps k with
    | some r => some r
    | none => k l caps
  | .group n a, l, caps, k =>
    reMatch a l caps (fun l2 c2 => k l2 ((n, l.take (l.length - l2.length)) :: c2))

/-- Sequence a list of regexes. -/
def reSeq (l : List RE) : RE := l.foldr RE.seq (RE.lit [] false)

/-- Literal from a string (case-sensitive). -/
def reStr (s : String) : RE := RE.lit s.data false

/-- Literal from a string under re.IGNORECASE. -/
def reStrCI (s : String) : RE := RE.lit s.data true

/-- Greedy star over a character class. -/
def reStar (p : Char → Bool) : RE := RE.rep p 0 none false

/-- Greedy plus over a character class. -/
def rePlus (p : Char → Bool) : RE := RE.rep p 1 none false

/-- Look up a captured group (groups used in the replacement templates
below always matched). -/
def capGet (caps : Caps) (n : Nat) : List Char :=
  ((caps.find? (fun x => x.1 == n)).map (fun x => x.2)).getD []

/-- Helper for `reSub`: `skip` characters of an already-replaced match still
to be dropped. A zero-width match is impossible for the patterns used here
(each starts with a mandatory element); the guard keeps the recursion
structural regardless. -/
def reSubGo (re : RE) (tmpl : Caps → List Char) : Nat → List Char → List Char
  | _, [] => []
  | n + 1, _ :: cs => reSubGo re tmpl n cs
  | 0, c :: cs =>
    match reMatch re (c :: cs) [] (fun rest caps => some (rest, caps)) with
    | some (rest, caps) =>
      let mLen := (c :: cs).length - rest.length
      if mLen = 0 then c :: reSubGo re tmpl 0 cs
      else tmpl caps ++ reSubGo re tmpl (mLen - 1) cs
    | none => c :: reSubGo re tmpl 0 cs

/-- Embedding of `re.sub(pattern, repl, text)`: non-overlapping leftmost
matches, each replaced via the template, scanning resuming after the
match. -/
def reSub (re : RE) (tmpl : Caps → List Char) (l : List Char) : List Char :=
  reSubGo re tmpl 0 l

/-- Character class `[^\n]`. -/
def notNL (c : Char) : Bool := c != '\n'

/-- Character class `\S`. -/
def nonWS (c : Char) : Bool := !pyIsSpace c

/-- Character class `[^\d\n]`. -/
def notDigitNL (c : Char) : Bool := !isDigitCh c && c != '\n'

/-- The date token `\d{2}/\d{2}/\d{4}` as a regex-engine term. -/
def dateRE : RE :=
  reSeq [.cls isDigitCh, .cls isDigitCh, reStr "/", .cls isDigitCh, .cls isDigitCh,
         reStr "/", .cls isDigitCh, .cls isDigitCh, .cls isDigitCh, .cls isDigitCh]

/-! ### DATE_PATTERN and its finditer

`DATE_PATTERN` (re.IGNORECASE) is the alternation, tried in this order at
each position:
 1. `\d{2}/\d{2}/\d{4}\s*a\s*\d{2}/\d{2}/\d{4}`
 2. `Entre\s+\d{2}/\d{2}/\d{4}(?:\s*(?:e|a)\s*\d{2}/\d{2}/\d{4})?`
 3. `\d{2}/\d{2}/\d{4}`
Each `\s*`/`\s+` is followed by a letter or digit, which is never
whitespace, so consuming the maximal whitespace run is the unique viable
choice and the matchers below are deterministic. -/

/-- Alternative 1 of `DATE_PATTERN`; returns the remaining input. -/
def matchAlt1 (l : List Char) : Option (List Char) :=
  match matchDateTok l with
  | none => none
  | some r1 =>
    match skipWS r1 with
    | c :: r3 => if ciEq c 'a' then matchDateTok (skipWS r3) else none
    | [] => none

/-- Alternative 2 of `DATE_PATTERN`; the optional tail is tried greedily
and dropped if it cannot complete. -/
def matchAlt2 (l : List Char) : Option (List Char) :=
  if pyStartsWithCI l "entre".data then
    match l.drop 5 with
    | c0 :: r1 =>
      if pyIsSpace c0 then
        match matchDateTok (skipWS r1) with
        | none => none
        | some r3 =>
          match skipWS r3 with
          | c :: r5 =>
            if ciEq c 'e' || ciEq c 'a' then
              match matchDateTok (skipWS r5) with
              | some r6 => some r6
              | none => some r3
            else some r3
          | [] => some r3
      else none
    | [] => none
  else none

/-- One `DATE_PATTERN` match attempt at the current position. -/
def matchDP (l : List Char) : Option (List Char) :=
  match matchAlt1 l with
  | some r => some r
  | none =>
    match matchAlt2 l with
    | some r => some r
    | none => matchDateTok l

/-- Helper for `reFinditer`: `skip` characters of the last match remain to
be jumped over; `pos` is the index of the head of the current list in the
original text. -/
def finditerGo (f : List Char → Option (List Char)) : Nat → Nat → List Char → List (Nat × List Char)
  | _, _, [] => []
  | n + 1, pos, _ :: cs => finditerGo f n (pos + 1) cs
  | 0, pos, c :: cs =>
    match f (c :: cs) with
    | some rest =>
      let mLen := (c :: cs).length - rest.length
      if mLen = 0 then finditerGo f 0 (pos + 1) cs
      else (pos, (c :: cs).take mLen) :: finditerGo f (mLen - 1) (pos + 1) cs
    | none => finditerGo f 0 (pos + 1) cs

/-- Embedding of `re.finditer`: all non-overlapping matches of the matcher
`f`, in text order, as (start offset, matched substring). -/
def reFinditer (f : List Char → Option (List Char)) (l : List Char) : List (Nat × List Char) :=
  finditerGo f 0 0 l

/-! ### The keyword patterns of Strategy 2 (all re.IGNORECASE) -/

/-- Keyword pattern `inscri[çc][õo]es?`. -/
def matchKwInscricoes (l : List Char) : Option (List Char) :=
  if pyStartsWithCI l "inscri".data then
    match l.drop 6 with
    | c1 :: c2 :: c3 :: rest =>
      if ciIn "çc" c1 && ciIn "õo" c2 && ciEq c3 'e' then some (consumeOptCI rest 's')
      else none
    | _ => none
  else none

/-- Keyword pattern `isen[çc][ãa]o`. -/
def matchKwIsencao (l : List Char) : Option (List Char) :=
  if pyStartsWithCI l "isen".data then
    match l.drop 4 with
    | c1 :: c2 :: c3 :: rest =>
      if ciIn "çc" c1 && ciIn "ãa" c2 && ciEq c3 'o' then some rest else none
    | _ => none
  else none

/-- The `provas?(?:\s+objetivas?)?` core of the third keyword pattern. -/
def matchProvaCore (l : List Char) : Option (List Char) :=
  if pyStartsWithCI l "prova".data then
    let r1 := consumeOptCI (l.drop 5) 's'
    match r1 with
    | c :: cs =>
      if pyIsSpace c then
        let r2 := skipWS cs
        if pyStartsWithCI r2 "objetiva".data then some (consumeOptCI (r2.drop 8) 's')
        else some r1
      else some r1
    | [] => some r1
  else none

/-- The optional prefix `aplica[çc][ãa]o\s+da\s+` of the third keyword
pattern. -/
def matchPrefixAplicacao (l : List Char) : Option (List Char) :=
  if pyStartsWithCI l "aplica".data then
    match l.drop 6 with
    | c1 :: c2 :: c3 :: rest =>
      if ciIn "çc" c1 && ciIn "ãa" c2 && ciEq c3 'o' then
        match rest with
        | d :: ds =>
          if pyIsSpace d then
            let r := skipWS ds
            if pyStartsWithCI r "da".data then
              match r.drop 2 with
              | e :: es => if pyIsSpace e then some (skipWS es) else none
              | [] => none
            else none
          else none
        | [] => none
      else none
    | _ => none
  else none

/-- Keyword pattern `(?:aplica[çc][ãa]o\s+da\s+)?provas?(?:\s+objetivas?)?`:
the greedy optional prefix is tried first and dropped on failure. -/
def matchKwProva (l : List Char) : Option (List Char) :=
  match matchPrefixAplicacao l with
  | some r =>
    match matchProvaCore r with
    | some r2 => some r2
    | none => matchProvaCore l
  | none => matchProvaCore l

/-- Keyword pattern `realiza[çc][ãa]o\s+da\s+provas?`. -/
def matchKwRealizacao (l : List Char) : Option (List Char) :=
  if pyStartsWithCI l "realiza".data then
    match l.drop 7 with
    | c1 :: c2 :: c3 :: rest =>
      if ciIn "çc" c1 && ciIn "ãa" c2 && ciEq c3 'o' then
        match rest with
        | d :: ds =>
          if pyIsSpace d then
            let r := skipWS ds
            if pyStartsWithCI r "da".data then
              match r.drop 2 with
              | e :: es =>
                if pyIsSpace e then
                  let r2 := skipWS es
                  if pyStartsWithCI r2 "prova".data then some (consumeOptCI (r2.drop 5) 's')
                  else none
                else none
              | [] => none
            else none
          else none
        | [] => none
      else none
    | _ => none
  else none

/-! ### normalize_text

Each STEP of `normalize_text` is one `re.sub`; the patterns are
transliterated into `RE` terms below, with the original pattern quoted. -/

/-- STEP 1: `(\d{2}/\d{2}/\d{4})\s+a\s+[^\n]*\n\s*([^\n]+)\n\s*(\d{2}/\d{2}/\d{4})`
(no flags), replacement `\2 \1 a \3`. -/
def normStep1RE : RE :=
  reSeq [.group 1 dateRE, rePlus pyIsSpace, reStr "a", rePlus pyIsSpace,
         reStar notNL, reStr "\n", reStar pyIsSpace, .group 2 (rePlus notNL),
         reStr "\n", reStar pyIsSpace, .group 3 dateRE]

def normStep1Tmpl (caps : Caps) : List Char :=
  capGet caps 2 ++ " ".data ++ capGet caps 1 ++ " a ".data ++ capGet caps 3

/-- The `(\d{2}/\d{2}/\d{4}(?:\s+a\s+\d{2}/\d{2}/\d{4})?)` group shared by
the three STEP 1.5 patterns (flags=IGNORECASE, so the `a` is `reStrCI`). -/
def dateMaybeRangeRE : RE :=
  .group 2 (reSeq [dateRE, .opt (reSeq [rePlus pyIsSpace, reStrCI "a", rePlus pyIsSpace, dateRE])])

/-- STEP 1.5a: `(inscri[çc][ãõ][^\n]{0,100})\n\s*(date-or-range)`
(IGNORECASE), replacement `\1 \2`. -/
def normStep15aRE : RE :=
  reSeq [.group 1 (reSeq [reStrCI "inscri", .cls (ciIn "çc"), .cls (ciIn "ãõ"),
                          .rep notNL 0 (some 100) false]),
         reStr "\n", reStar pyIsSpace, dateMaybeRangeRE]

/-- STEP 1.5b: `(isen[çc][ãa]o[^\n]{0,100})\n\s*(date-or-range)` (IGNORECASE). -/
def normStep15bRE : RE :=
  reSeq [.group 1 (reSeq [reStrCI "isen", .cls (ciIn "çc"), .cls (ciIn "ãa"), reStrCI "o",
                          .rep notNL 0 (some 100) false]),
         reStr "\n", reStar pyIsSpace, dateMaybeRangeRE]

/-- STEP 1.5c: `((?:aplica[çc][ãa]o\s+da\s+)?provas?[^\n]{0,100})\n\s*(date-or-range)`
(IGNORECASE). -/
def normStep15cRE : RE :=
  reSeq [.group 1 (reSeq [.opt (reSeq [reStrCI "aplica", .cls (ciIn "çc"), .cls (ciIn "ãa"),
                                       reStrCI "o", rePlus pyIsSpace, reStrCI "da",
                                       rePlus pyIsSpace]),
                          reStrCI "prova", .opt (reStrCI "s"),
                          .rep notNL 0 (some 100) false]),
         reStr "\n", reStar pyIsSpace, dateMaybeRangeRE]

def normStep15Tmpl (caps : Caps) : List Char := capGet caps 1 ++ " ".data ++ capGet caps 2

/-- STEP 2: `https?://\S+|www\.\S+` (no flags), replaced by the empty
string. -/
def normStep2RE : RE :=
  .alt (reSeq [reStr "http", .opt (reStr "s"), reStr "://", rePlus nonWS])
       (reSeq [reStr "www.", rePlus nonWS])

/-- STEP 3: `(\d{2}/\d{2}/\d{4})\s*a\s*\n\s*(\d{2}/\d{2}/\d{4})` (no
flags), replacement `\1 a \2`. -/
def normStep3RE : RE :=
  reSeq [.group 1 dateRE, reStar pyIsSpace, reStr "a", reStar pyIsSpace,
         reStr "\n", reStar pyIsSpace, .group 2 dateRE]

def normStep3Tmpl (caps : Caps) : List Char :=
  capGet caps 1 ++ " a ".data ++ capGet caps 2

/-- STEP 4: `Entre\s*\n\s*(\d{2}/\d{2}/\d{4})` (IGNORECASE), replacement
`Entre \1`. -/
def normStep4RE : RE :=
  reSeq [reStrCI "Entre", reStar pyIsSpace, reStr "\n", reStar pyIsSpace, .group 1 dateRE]

def normStep4Tmpl (caps : Caps) : List Char := "Entre ".data ++ capGet caps 1

/-- STEP 5: `(Entre\s+\d{2}/\d{2}/\d{4})\s+a\s*\n?\s*([^\d\n]+)?\s*(\d{2}/\d{2}/\d{4})`
(IGNORECASE), replacement `\1 a \3`. -/
def normStep5RE : RE :=
  reSeq [.group 1 (reSeq [reStrCI "Entre", rePlus pyIsSpace, dateRE]),
         rePlus pyIsSpace, reStrCI "a", reStar pyIsSpace, .opt (reStr "\n"),
         reStar pyIsSpace, .opt (.group 2 (rePlus notDigitNL)), reStar pyIsSpace,
         .group 3 dateRE]

def normStep5Tmpl (caps : Caps) : List Char :=
  capGet caps 1 ++ " a ".data ++ capGet caps 3

/-- STEP 6a: `[ \t]+` replaced by one space. -/
def normStep6aRE : RE := rePlus (fun c => c == ' ' || c == '\t')

/-- STEP 6b: `\n{3,}` replaced by two newlines. -/
def normStep6bRE : RE := .rep (fun c => c == '\n') 3 none false

/-- Embedding of `normalize_text`: the six substitution steps in source
order, then `strip()`. -/
def normalize_text (text : List Char) : List Char :=
  let t1 := reSub normStep1RE normStep1Tmpl text
  let t2 := reSub normStep15aRE normStep15Tmpl t1
  let t3 := reSub normStep15bRE normStep15Tmpl t2
  let t4 := reSub normStep15cRE normStep15Tmpl t3
  let t5 := reSub normStep2RE (fun _ => []) t4
  let t6 := reSub normStep3RE normStep3Tmpl t5
  let t7 := reSub normStep4RE normStep4Tmpl t6
  let t8 := reSub normStep5RE normStep5Tmpl t7
  let t9 := reSub normStep6aRE (fun _ => " ".data) t8
  let t10 := reSub normStep6bRE (fun _ => "\n\n".data) t9
  pyStrip t10

/-! ### extract_all_dates -/

/-- One extracted date event (the dicts built by `extract_all_dates`):
`data_inicio` is stored unwrapped because events are only appended under
the `if data_inicio:` truthiness guard. -/
structure Event where
  evento : String
  data_inicio : String
  data_fim : Option String
  tipo : String
deriving DecidableEq, Repr

/-- Python truthiness of an optional string (`None` and `""` are falsy). -/
def pyTruthy (o : Option String) : Bool :=
  match o with
  | none => false
  | some s => !s.data.isEmpty

/-- Rendering of `data_fim` inside an f-string (`None` for absent). -/
def showFim (o : Option String) : List Char :=
  match o with
  | some s => s.data
  | none => "None".data

/-- Strategy 1 dedup key `f"{data_inicio}|{data_fim}|{event_text[:50]}"`. -/
def mkKey1 (di : String) (df : Option String) (event_text : List Char) : List Char :=
  di.data ++ "|".data ++ showFim df ++ "|".data ++ event_text.take 50

/-- Strategy 2 dedup key `f"{data_inicio}|{data_fim}|{tipo}"`. -/
def mkKey2 (di : String) (df : Option String) (tipo : String) : List Char :=
  di.data ++ "|".data ++ showFim df ++ "|".data ++ tipo.data

/-- The `re.sub(r'Nota Informativa.*', '', context)` cleanup pattern
(no DOTALL: `.` stops at a newline). -/
def notaRE : RE := reSeq [reStr "Nota Informativa", reStar notNL]

/-- The `re.sub(r'[:\-–]+$', '', s)` cleanup. Its argument is always the
result of `strip()`, so it never ends in a newline and `$` only matches at
the very end: the substitution removes the maximal trailing run of the
three punctuation characters. -/
def stripTrailPunct (l : List Char) : List Char :=
  (l.reverse.dropWhile (fun c => c == ':' || c == '-' || c == '–')).reverse

/-- One Strategy 1 iteration (date found, look back up to 150 characters
for context): lines 195–225 of the source. `acc` is
(results so far, seen keys so far). -/
def strategy1Step (txt : List Char) (acc : List Event × List (List Char))
    (m : Nat × List Char) : List Event × List (List Char) :=
  let ctx0 := pySlice txt (m.1 - 150) m.1
  let ctx := pyStrip (reSub notaRE (fun _ => []) ctx0)
  let lastFrag := pyStrip ((pySplit ".".data ctx).getLastD [])
  let event_text := pyStrip (stripTrailPunct lastFrag)
  let pr := parse_date_block m.2
  match pr.1 with
  | some di =>
    if di.data.isEmpty then acc
    else
      let key := mkKey1 di pr.2 event_text
      if acc.2.contains key then acc
      else (acc.1 ++ [⟨String.mk event_text, di, pr.2, classify_event event_text⟩],
            key :: acc.2)
  | none => acc

/-- The inner date loop of one Strategy 2 keyword occurrence (lines
247–266): scan the dates found in the forward window; skip a date whose
start does not parse truthy or whose key is already seen; emit at most one
event and stop at the first success. -/
def scanOccurrence (tipo : String) (event_text : String) (seen : List (List Char)) :
    List (List Char) → Option Event
  | [] => none
  | d :: rest =>
    let pr := parse_date_block d
    match pr.1 with
    | some di =>
      if di.data.isEmpty then scanOccurrence tipo event_text seen rest
      else if seen.contains (mkKey2 di pr.2 tipo) then scanOccurrence tipo event_text seen rest
      else some ⟨event_text, di, pr.2, tipo⟩
    | none => scanOccurrence tipo event_text seen rest

/-- One Strategy 2 keyword occurrence (lines 238–266): 200-character
forward window, event text from 50 characters before to 100 after the
keyword. -/
def strategy2Occ (txt : List Char) (tipo : String) (acc : List Event × List (List Char))
    (kwm : Nat × List Char) : List Event × List (List Char) :=
  let fwd := pySlice txt kwm.1 (kwm.1 + 200)
  let dates := (reFinditer matchDP fwd).map (fun x => x.2)
  let et0 := pyStrip (pySlice txt (kwm.1 - 50) (kwm.1 + 100))
  let event_text := String.mk (pyStrip (stripTrailPunct et0))
  match scanOccurrence tipo event_text acc.2 dates with
  | some ev => (acc.1 ++ [ev], mkKey2 ev.data_inicio ev.data_fim tipo :: acc.2)
  | none => acc

/-- The Strategy 2 keyword list, in source order. -/
def keywordMatchers : List ((List Char → Option (List Char)) × String) :=
  [(matchKwInscricoes, "inscricao"), (matchKwIsencao, "isencao"),
   (matchKwProva, "prova"), (matchKwRealizacao, "prova")]

/-- Embedding of `extract_all_dates`: normalise, run Strategy 1 over all
`DATE_PATTERN` matches, then Strategy 2 over all keyword occurrences,
sharing one seen-key set. -/
def extract_all_dates (raw : List Char) : List Event :=
  let txt := normalize_text raw
  let acc1 := (reFinditer matchDP txt).foldl (strategy1Step txt) ([], [])
  let acc2 := keywordMatchers.foldl
    (fun acc km => (reFinditer km.1 txt).foldl (strategy2Occ txt km.2) acc) acc1
  acc2.1

/-! ### The cronograma-section search

`re.search(r'(CRONOGRAMA|Cronograma|DATAS?\s+IMPORTANTES?|Datas?\s+Importantes?)`
`[^\n]*\n([\s\S]{100,12000}?)(?=\n\s*(?:ANEXO|Anexo|CAPÍTULO|Capítulo|\d+\.\s+[A-Z])|$)',`
`text, re.IGNORECASE)`.

Under IGNORECASE the heading alternation collapses to case-insensitive
`cronograma` or `datas? \s+ importantes?`. `[^\n]*\n` deterministically
consumes to the end of the heading line (shrinking `[^\n]*` puts a
non-newline in front of `\n`). The body `[\s\S]{100,12000}?` is lazy:
take the smallest n ≥ 100 at which the lookahead holds; the lookahead
`\n\s*(terminator)` is deterministic because no terminator starts with a
whitespace character, and `$` (no MULTILINE) holds at the end of the text
or just before a final newline. -/

/-- ASCII letter test: `[A-Z]` under re.IGNORECASE. -/
def isAsciiLetter (c : Char) : Bool :=
  decide ((65 ≤ c.toNat ∧ c.toNat ≤ 90) ∨ (97 ≤ c.toNat ∧ c.toNat ≤ 122))

/-- The `\s+IMPORTANTES?` tail of the heading alternation; returns the
remaining input. -/
def datasTail (r : List Char) : Option (List Char) :=
  match r with
  | c :: cs =>
    if pyIsSpace c then
      let r2 := skipWS cs
      if pyStartsWithCI r2 "importante".data then some (consumeOptCI (r2.drop 10) 's')
      else none
    else none
  | [] => none

/-- `DATAS?\s+IMPORTANTES?` from the position after `data`, with the greedy
optional `s` tried first. Returns the heading length. -/
def matchDatasImportantes (l : List Char) : Option Nat :=
  let r0 := l.drop 4
  let withS : Option (List Char) :=
    match r0 with
    | c :: cs => if ciEq c 's' then datasTail cs else none
    | [] => none
  match withS with
  | some rest => some (l.length - rest.length)
  | none =>
    match datasTail r0 with
    | some rest => some (l.length - rest.length)
    | none => none

/-- The heading alternation, in source order; returns the heading length. -/
def headingAltLen (l : List Char) : Option Nat :=
  if pyStartsWithCI l "cronograma".data then some 10
  else if pyStartsWithCI l "data".data then matchDatasImportantes l
  else none

/-- `\d+\.\s+[A-Z]` (IGNORECASE) terminator test. -/
def numberedHeadingOK (l : List Char) : Bool :=
  let digs := l.takeWhile isDigitCh
  if digs.isEmpty then false
  else
    match l.drop digs.length with
    | '.' :: c :: cs =>
      if pyIsSpace c then
        match skipWS cs with
        | d :: _ => isAsciiLetter d
        | [] => false
      else false
    | _ => false

/-- The terminator alternation `ANEXO|Anexo|CAPÍTULO|Capítulo|\d+\.\s+[A-Z]`
(IGNORECASE). -/
def termAltOK (l : List Char) : Bool :=
  pyStartsWithCI l "anexo".data || pyStartsWithCI l "capítulo".data || numberedHeadingOK l

/-- The lookahead `(?=\n\s*(?:terminator)|$)` at the current position. -/
def lookaheadOK (l : List Char) : Bool :=
  match l with
  | [] => true
  | '\n' :: rest => rest.isEmpty || termAltOK (skipWS rest)
  | _ => false

/-- Lazy body scan: `n` characters already taken (starting at the minimum
100), growing one at a time up to 12000 while the lookahead fails. -/
def bodyLenGo (n : Nat) : List Char → Option Nat
  | [] => if lookaheadOK [] then some n else none
  | c :: cs =>
    if lookaheadOK (c :: cs) then some n
    else if 12000 ≤ n then none
    else bodyLenGo (n + 1) cs

/-- The section body captured after a heading line, if the lazy
`[\s\S]{100,12000}?` with the terminator lookahead can match. -/
def sectionBody (body : List Char) : Option (List Char) :=
  if body.length < 100 then none
  else
    match bodyLenGo 100 (body.drop 100) with
    | some n => some (body.take n)
    | none => none

/-- The `re.search` scan: try the full pattern at each position, left to
right. -/
def locateSectionAux : List Char → Option (List Char)
  | [] => none
  | c :: cs =>
    match headingAltLen (c :: cs) with
    | some hl =>
      match ((c :: cs).drop hl).dropWhile notNL with
      | '\n' :: body =>
        match sectionBody body with
        | some s => some s
        | none => locateSectionAux cs
      | _ => locateSectionAux cs
    | none => locateSectionAux cs

/-- Embedding of the cronograma-section search of `extract_from_text`
(group 2 of the match, i.e. the section body). -/
def locateCronogramaSection (l : List Char) : Option (List Char) := locateSectionAux l

/-! ### Field resolution and extract_from_text -/

/-- The four-field result dict of `extract_from_text`. -/
structure CronResult where
  inscricao_inicio : Option String
  inscricao_fim : Option String
  isencao_inicio : Option String
  data_prova : Option String
deriving DecidableEq, Repr

/-- The all-`None` initial result. -/
def emptyResult : CronResult := ⟨none, none, none, none⟩

/-- State of the two resolution loops: the result dict plus the
`prova_range` variable. -/
structure ResState where
  res : CronResult
  prova_range : Option Event
deriving DecidableEq, Repr

/-- The high-confidence test of lines 342–352: the event text itself
contains the defining keyword of its own type. -/
def isHighConfidence (e : Event) : Bool :=
  let lw := pyLower e.evento.data
  (e.tipo == "inscricao" && containsSub "inscri".data lw) ||
  (e.tipo == "isencao" && containsSub "isen".data lw) ||
  (e.tipo == "prova" && (containsSub "prova".data lw || containsSub "aplica".data lw ||
    containsSub "realiza".data lw))

/-- One iteration of the (identical) high- and low-confidence resolution
loops (lines 355–374 and 377–396). -/
def resolveStep (s : ResState) (e : Event) : ResState :=
  if e.tipo == "inscricao" && !pyTruthy s.res.inscricao_inicio then
    { s with res := { s.res with inscricao_inicio := some e.data_inicio,
                                 inscricao_fim := e.data_fim } }
  else if e.tipo == "isencao" && !pyTruthy s.res.isencao_inicio then
    { s with res := { s.res with isencao_inicio := some e.data_inicio } }
  else if e.tipo == "prova" then
    if pyTruthy e.data_fim && s.prova_range.isNone then
      { s with prova_range := some e }
    else if !pyTruthy s.res.data_prova && !pyTruthy e.data_fim then
      { s with res := { s.res with data_prova := some e.data_inicio } }
    else s
  else s

/-- Lines 336–403: split the events into confidence tiers, run the two
loops, then let a remembered prova range overwrite `data_prova`. -/
def resolveFields (events : List Event) : CronResult :=
  let parts := events.partition isHighConfidence
  let s1 := parts.1.foldl resolveStep ⟨emptyResult, none⟩
  let s2 := parts.2.foldl resolveStep s1
  match s2.prova_range with
  | some e => { s2.res with data_prova := some e.data_inicio }
  | none => s2.res

/-- Embedding of `CronogramaParser.extract_from_text` on character lists:
empty-input early return, optional section isolation, fallback to the full
document when the section is missing or yields fewer than 3 events, then
field resolution. -/
def extractL (t : List Char) : CronResult :=
  if t.isEmpty then emptyResult
  else
    let sectionEvents :=
      match locateCronogramaSection t with
      | some s => extract_all_dates s
      | none => []
    let events :=
      if sectionEvents.isEmpty || sectionEvents.length < 3 then extract_all_dates t
      else sectionEvents
    resolveFields events

/-- Embedding of `CronogramaParser.extract_from_text`. -/
def extract_from_text (text : String) : CronResult := extractL text.data

/-! ### Claims -/

/-- C1: for the three-line input
`"Período de inscrição: 10/02/2026 a 15/02/2026\nIsenção: 12/02/2026\nProva: 20/02/2026"`,
`extract_from_text` returns exactly registration 2026-02-10..2026-02-15,
exemption 2026-02-12 and exam date 2026-02-20. -/
theorem claim_C1_extract_example :
    extract_from_text
      "Período de inscrição: 10/02/2026 a 15/02/2026\nIsenção: 12/02/2026\nProva: 20/02/2026" =
    { inscricao_inicio := some "2026-02-10", inscricao_fim := some "2026-02-15",
      isencao_inicio := some "2026-02-12", data_prova := some "2026-02-20" } := by
  decide

/-- C3: `extract_from_text` applied to the empty string returns the
all-null result. (The other half of the claim — that no exception ever
propagates out of the extractor — is witnessed by the embedding itself:
`extract_from_text` is a total function into `CronResult`, every fallible
step being expressed with `Option` rather than exceptions, mirroring how
the source catches every parse failure and encodes absence as `None`.) -/
theorem claim_C3_empty_input :
    extract_from_text "" = { inscricao_inicio := none, inscricao_fim := none,
                             isencao_inicio := none, data_prova := none } := by
  decide

/-- Spec-side classifier, following the specification's words for §4.4: an
ordered list of keyword groups (exemption > registration >
exam/application/realization > result > appeal > publication), evaluated
by case-insensitive substring containment with the first matching group
winning, and `Other` when none matches. -/
def specKeywordGroups : List (List String × String) :=
  [(["isen", "isençã", "isenc"], "isencao"),
   (["inscri", "inscric"], "inscricao"),
   (["prova", "aplicac", "aplicaç", "realizac", "realizaç"], "prova"),
   (["resultado"], "resultado"),
   (["recurso"], "recurso"),
   (["publica"], "publicacao")]

/-- First-match priority classification as described by the spec. -/
def classifySpec (event_text : List Char) : String :=
  let e := pyLower event_text
  (((specKeywordGroups.find? (fun g => g.1.any (fun w => containsSub w.data e))).map
    (fun g => g.2)).getD "outro")

/-- C6: the classifier is exactly priority-ordered first-match substring
containment (so an earlier category wins even when later keywords are also
present), and the two concrete cases of the spec hold:
`classify("Isenção de inscrição") = isencao` and
`classify("Homologação do resultado") = resultado`. -/
theorem claim_C6_classifier :
    (∀ s : List Char, classify_event s = classifySpec s) ∧
    classify_event "Isenção de inscrição".data = "isencao" ∧
    classify_event "Homologação do resultado".data = "resultado" := by
  refine ⟨fun s => ?_, by decide, by decide⟩
  simp only [classify_event, classifySpec, specKeywordGroups, List.find?, List.any,
    Bool.or_false, Bool.or_assoc]
  repeat' split <;> (try simp_all)

/-- Acceptance test of one date block in a Strategy 2 occurrence scan: the
start date parses truthy and the dedup key is not yet seen. -/
def scanOccGood (tipo : String) (seen : List (List Char)) (d : List Char) : Bool :=
  match (parse_date_block d).1 with
  | some di => !di.data.isEmpty && !seen.contains (mkKey2 di (parse_date_block d).2 tipo)
  | none => false

/-- The event built from an accepted date block. -/
def mkOccEvent (tipo : String) (event_text : String) (d : List Char) : Event :=
  ⟨event_text, ((parse_date_block d).1).getD "", (parse_date_block d).2, tipo⟩

/-- C5 (amended): a Strategy 2 keyword occurrence produces at most one
Event, namely from the first date block in its forward window that both
parses successfully and has an unseen dedup key; blocks that fail to parse
or are duplicates are skipped and scanning continues past them (so the
Event need not come from the first DateMatcher hit). -/
theorem claim_C5_first_good_date (tipo : String) (event_text : String)
    (seen : List (List Char)) (dates : List (List Char)) :
    scanOccurrence tipo event_text seen dates =
      (dates.find? (scanOccGood tipo seen)).map (mkOccEvent tipo event_text) := by
  induction dates with
  | nil => rfl
  | cons d rest ih =>
    simp only [scanOccurrence, List.find?, scanOccGood]
    cases h : (parse_date_block d).1 with
    | none => simpa [h] using ih
    | some di =>
      simp only [h]
      cases hemp : di.data.isEmpty with
      | true => simpa [hemp] using ih
      | false =>
        cases hseen : seen.contains (mkKey2 di (parse_date_block d).2 tipo) with
        | true => simpa [hemp, hseen] using ih
        | false => simp [hemp, hseen, mkOccEvent, h]

/-- C5 (counterexample to the claim as stated): in the forward window
`"prova 99/99/9999 e 20/02/2026"` the first DateMatcher hit is
`99/99/9999`, which does not parse; the occurrence scan nevertheless
produces an Event, and its date comes from the second hit `20/02/2026` —
so a later date within the window can produce the Event for the same
keyword occurrence. -/
theorem claim_C5_counterexample :
    (reFinditer matchDP "prova 99/99/9999 e 20/02/2026".data).map (fun m => m.2) =
      ["99/99/9999".data, "20/02/2026".data] ∧
    parse_date_block "99/99/9999".data = (none, none) ∧
    scanOccurrence "prova" "Prova" [] ["99/99/9999".data, "20/02/2026".data] =
      some ⟨"Prova", "2026-02-20", none, "prova"⟩ := by
  decide

/-- A prova event carrying a range, as tested by the resolution loops. -/
def isRangeProva (e : Event) : Bool := e.tipo == "prova" && pyTruthy e.data_fim

/-- Once `prova_range` is set, the resolution loop never changes it. -/
theorem foldl_resolveStep_pr_some (l : List Event) (s : ResState) (x : Event)
    (h : s.prova_range = some x) : (l.foldl resolveStep s).prova_range = some x := by
  induction l generalizing s with
  | nil => simpa using h
  | cons e rest ih =>
    apply ih
    unfold resolveStep
    repeat' split <;> simp_all

/-- While `prova_range` is unset, the resolution loop sets it to the first
range-carrying prova event it meets. -/
theorem foldl_resolveStep_pr_none (l : List Event) (s : ResState)
    (h : s.prova_range = none) :
    (l.foldl resolveStep s).prova_range = l.find? isRangeProva := by
  induction l generalizing s with
  | nil => simpa using h
  | cons e rest ih =>
    simp only [List.foldl_cons, List.find?]
    cases hre : isRangeProva e with
    | false =>
      have hstep : (resolveStep s e).prova_range = none := by
        simp only [isRangeProva] at hre
        unfold resolveStep
        repeat' split <;> simp_all
      simp only [hre, ih _ hstep]
    | true =>
      have hre2 := hre
      simp only [isRangeProva, Bool.and_eq_true] at hre2
      obtain ⟨h1, h2⟩ := hre2
      have htipo : e.tipo = "prova" := by simpa using h1
      have hstep : (resolveStep s e).prova_range = some e := by
        unfold resolveStep
        simp [htipo, h2, h]
      simp only [hre, foldl_resolveStep_pr_some rest _ e hstep]

/-- find? only depends on the predicate's values on the list. -/
theorem find?_congr_mem {α : Type} (l : List α) (p q : α → Bool)
    (h : ∀ x ∈ l, p x = q x) : l.find? p = l.find? q := by
  induction l with
  | nil => rfl
  | cons a as ih =>
    simp only [List.find?]
    rw [h a (List.mem_cons_self a as)]
    cases q a with
    | true => rfl
    | false => exact ih (fun x hx => h x (List.mem_cons_of_mem a hx))

/-- C2: if the discovered event list contains a prova event with a non-null
end date, the final `data_prova` is the start of the first such event in
the scan order (high-confidence tier, then low-confidence tier), and this
range start overwrites any single-date value stored during the loops. The
well-formedness hypothesis records that discovered events never carry the
empty string as an end date (`to_iso` only produces 10-character ISO
dates), so "non-null" and Python truthiness coincide. -/
theorem claim_C2_exam_range_precedence (events : List Event) (e : Event)
    (hwf : ∀ ev ∈ events, ev.data_fim ≠ some "")
    (hfind : ((events.partition isHighConfidence).1 ++
        (events.partition isHighConfidence).2).find?
        (fun ev => ev.tipo == "prova" && ev.data_fim.isSome) = some e) :
    (resolveFields events).data_prova = some e.data_inicio := by
  have hmem : ∀ x ∈ (events.partition isHighConfidence).1 ++
      (events.partition isHighConfidence).2, x ∈ events := by
    intro x hx
    rw [List.partition_eq_filter_filter] at hx
    simp only [List.mem_append, List.mem_filter] at hx
    rcases hx with h | h
    · exact h.1
    · exact h.1
  have hcongr : ((events.partition isHighConfidence).1 ++
      (events.partition isHighConfidence).2).find?
      (fun ev => ev.tipo == "prova" && ev.data_fim.isSome) =
      ((events.partition isHighConfidence).1 ++
      (events.partition isHighConfidence).2).find? isRangeProva := by
    apply find?_congr_mem
    intro x hx
    have hne := hwf x (hmem x hx)
    cases hfim : x.data_fim with
    | none => simp [isRangeProva, pyTruthy, hfim]
    | some s =>
      have hs : s ≠ "" := by
        intro hcon
        exact hne (by simpa [hcon] using hfim)
      have hdata : s.data ≠ [] := by
        intro hcon
        apply hs
        cases s with
        | mk d => simpa [String.ext_iff] using hcon
      simp [isRangeProva, pyTruthy, hfim, List.isEmpty_iff, hdata]
  rw [hcongr] at hfind
  unfold resolveFields
  have hfold : ((events.partition isHighConfidence).2).foldl resolveStep
      (((events.partition isHighConfidence).1).foldl resolveStep ⟨emptyResult, none⟩) =
      (((events.partition isHighConfidence).1 ++
        (events.partition isHighConfidence).2)).foldl resolveStep ⟨emptyResult, none⟩ := by
    rw [List.foldl_append]
  simp only [hfold]
  rw [foldl_resolveStep_pr_none _ _ rfl, hfind]

/-- Witness for C2 at a concrete event list: a single-date prova event is
discovered first, a range prova event later; the final exam date is the
range's start. -/
theorem claim_C2_witness :
    (resolveFields [⟨"Prova", "2026-02-20", none, "prova"⟩,
                    ⟨"Prova", "2026-03-01", some "2026-03-05", "prova"⟩]).data_prova =
      some "2026-03-01" :=
  claim_C2_exam_range_precedence _ ⟨"Prova", "2026-03-01", some "2026-03-05", "prova"⟩
    (by decide) (by decide)

/-- The resolution loop preserves "a registration end is never stored
without a registration start": the only branch writing `inscricao_fim`
writes `inscricao_inicio` in the same assignment. -/
theorem foldl_resolveStep_reg (l : List Event) (s : ResState)
    (hinv : s.res.inscricao_fim ≠ none → s.res.inscricao_inicio ≠ none) :
    (l.foldl resolveStep s).res.inscricao_fim ≠ none →
    (l.foldl resolveStep s).res.inscricao_inicio ≠ none := by
  induction l generalizing s with
  | nil => simpa using hinv
  | cons e rest ih =>
    apply ih
    unfold resolveStep
    repeat' split <;> simp_all

/-- The invariant holds of every resolved result. -/
theorem resolveFields_reg (events : List Event) :
    (resolveFields events).inscricao_fim ≠ none →
    (resolveFields events).inscricao_inicio ≠ none := by
  unfold resolveFields
  dsimp only
  have h1 := foldl_resolveStep_reg (events.partition isHighConfidence).1
    ⟨emptyResult, none⟩ (by simp [emptyResult])
  have h2 := foldl_resolveStep_reg (events.partition isHighConfidence).2
    (((events.partition isHighConfidence).1).foldl resolveStep ⟨emptyResult, none⟩) h1
  split <;> simpa using h2

/-- C9: in every result of the extractor, a non-null `inscricao_fim`
implies a non-null `inscricao_inicio` — the two registration fields are
only ever assigned together, and no code path sets the end alone. -/
theorem claim_C9_registration_invariant (text : String)
    (h : (extract_from_text text).inscricao_fim ≠ none) :
    (extract_from_text text).inscricao_inicio ≠ none := by
  revert h
  unfold extract_from_text extractL
  split
  · simp [emptyResult]
  · exact resolveFields_reg _

/-- Witness for C9 at the three-line example input, whose registration end
is non-null. -/
theorem claim_C9_witness :
    (extract_from_text
      "Período de inscrição: 10/02/2026 a 15/02/2026\nIsenção: 12/02/2026\nProva: 20/02/2026").inscricao_inicio ≠ none :=
  claim_C9_registration_invariant _ (by decide)

/-- C7: if no cronograma section is found, or the section yields fewer than
3 events, the result is computed exclusively from a full-document
extraction (the section events are discarded, not merged); if the section
yields 3 or more events, only the section events are used. -/
theorem claim_C7_section_fallback (t : List Char) (hne : t ≠ []) :
    ((locateCronogramaSection t = none ∨
      (∀ s, locateCronogramaSection t = some s → (extract_all_dates s).length < 3)) →
      extractL t = resolveFields (extract_all_dates t)) ∧
    (∀ s, locateCronogramaSection t = some s → 3 ≤ (extract_all_dates s).length →
      extractL t = resolveFields (extract_all_dates s)) := by
  have hemp : t.isEmpty = false := by
    cases t with
    | nil => exact absurd rfl hne
    | cons a l => rfl
  constructor
  · intro hcond
    unfold extractL
    rw [hemp]
    dsimp only
    cases hloc : locateCronogramaSection t with
    | none => simp
    | some s =>
      rcases hcond with h | h
      · rw [hloc] at h
        exact absurd h (by simp)
      · have hlen := h s hloc
        have : (extract_all_dates s).length < 3 := hlen
        simp [this]
  · intro s hloc hlen
    unfold extractL
    rw [hemp]
    dsimp only
    rw [hloc]
    have h1 : (extract_all_dates s).isEmpty = false := by
      cases hE : extract_all_dates s with
      | nil => rw [hE] at hlen; simp at hlen
      | cons a l => rfl
    have h2 : ¬ (extract_all_dates s).length < 3 := by omega
    simp [h1, h2]

/-- Witness for C7 at a concrete sectionless document. -/
theorem claim_C7_witness :
    locateCronogramaSection "Prova: 20/02/2026".data = none ∧
    extractL "Prova: 20/02/2026".data =
      resolveFields (extract_all_dates "Prova: 20/02/2026".data) :=
  ⟨by decide, (claim_C7_section_fallback _ (by decide)).1 (Or.inl (by decide))⟩

/-- The lazy body scan only reports counts at least as large as its
starting count, and never larger than the remaining input allows. -/
theorem bodyLenGo_spec (r : List Char) : ∀ k n, bodyLenGo k r = some n →
    k ≤ n ∧ n - k ≤ r.length := by
  induction r with
  | nil =>
    intro k n h
    unfold bodyLenGo at h
    simp [lookaheadOK] at h
    omega
  | cons c cs ih =>
    intro k n h
    unfold bodyLenGo at h
    split at h
    · have : k = n := by simpa using h
      simp [this]
    · split at h
      · simp at h
      · have := ih (k + 1) n h
        simp only [List.length_cons]
        omega

/-- A captured section body has at least 100 characters. -/
theorem sectionBody_len (body s : List Char) (h : sectionBody body = some s) :
    100 ≤ s.length := by
  unfold sectionBody at h
  split at h
  · simp at h
  · rename_i hlen
    split at h
    · rename_i n hgo
      have hs : body.take n = s := by simpa using h
      have hspec := bodyLenGo_spec (body.drop 100) 100 n hgo
      have hdl : (body.drop 100).length = body.length - 100 := by simp
      rw [← hs]
      simp only [List.length_take]
      omega
    · simp at h

/-- Any reported section has at least 100 characters. -/
theorem locateSectionAux_len (l : List Char) : ∀ s, locateSectionAux l = some s →
    100 ≤ s.length := by
  induction l with
  | nil => intro s h; simp [locateSectionAux] at h
  | cons c cs ih =>
    intro s h
    unfold locateSectionAux at h
    split at h
    · split at h
      · split at h
        · rename_i r6 hbody
          have hs : r6 = s := by simpa using h
          rw [hs] at hbody
          exact sectionBody_len _ _ hbody
        · exact ih s h
      · exact ih s h
    · exact ih s h

/-- C10: a cronograma section is reported only when at least 100 characters
of body follow the heading line (the lazy `[\s\S]{100,12000}?` cannot take
fewer); and on the concrete document whose heading is followed by a short
body, no section is reported and the extractor falls back to scanning the
entire document. -/
theorem claim_C10_section_min_body :
    (∀ t s, locateCronogramaSection t = some s → 100 ≤ s.length) ∧
    (locateCronogramaSection "CRONOGRAMA\nProva: 20/02/2026".data = none ∧
     extractL "CRONOGRAMA\nProva: 20/02/2026".data =
       resolveFields (extract_all_dates "CRONOGRAMA\nProva: 20/02/2026".data)) := by
  refine ⟨fun t s h => locateSectionAux_len t s h, by decide, by decide⟩

/-- Witness for C10: on a document with a 120-character section body the
locator reports a section, and the theorem bounds its length. -/
theorem claim_C10_witness :
    locateCronogramaSection ("CRONOGRAMA\n".data ++ List.replicate 120 'x') =
      some (List.replicate 120 'x') ∧
    100 ≤ (List.replicate 120 'x').length :=
  ⟨by decide,
   claim_C10_section_min_body.1 ("CRONOGRAMA\n".data ++ List.replicate 120 'x')
     (List.replicate 120 'x') (by decide)⟩

/-! ### Symbolic date-token machinery for C4 and C8 -/

def isDateTokenShape : List Char → Bool
  | [a1, a2, s1, a3, a4, s2, a5, a6, a7, a8] =>
    isDigitCh a1 && isDigitCh a2 && s1 == '/' && isDigitCh a3 && isDigitCh a4 && s2 == '/' &&
    isDigitCh a5 && isDigitCh a6 && isDigitCh a7 && isDigitCh a8
  | _ => false

theorem dateTokenShape_elim (t : List Char) (h : isDateTokenShape t = true) :
    ∃ a1 a2 a3 a4 a5 a6 a7 a8,
      t = [a1, a2, '/', a3, a4, '/', a5, a6, a7, a8] ∧
      isDigitCh a1 = true ∧ isDigitCh a2 = true ∧ isDigitCh a3 = true ∧ isDigitCh a4 = true ∧
      isDigitCh a5 = true ∧ isDigitCh a6 = true ∧ isDigitCh a7 = true ∧ isDigitCh a8 = true := by
  unfold isDateTokenShape at h
  split at h
  · rename_i a1 a2 s1 a3 a4 s2 a5 a6 a7 a8
    simp only [Bool.and_eq_true, beq_iff_eq] at h
    obtain ⟨⟨⟨⟨⟨⟨⟨⟨⟨h1, h2⟩, hs1⟩, h3⟩, h4⟩, hs2⟩, h5⟩, h6⟩, h7⟩, h8⟩ := h
    subst hs1; subst hs2
    exact ⟨a1, a2, a3, a4, a5, a6, a7, a8, rfl, h1, h2, h3, h4, h5, h6, h7, h8⟩
  · exact absurd h (by simp)

theorem matchDateTok_head_not_digit (c : Char) (cs : List Char) (h : isDigitCh c = false) :
    matchDateTok (c :: cs) = none := by
  rcases cs with _ | ⟨b1, _ | ⟨b2, _ | ⟨b3, _ | ⟨b4, _ | ⟨b5, _ | ⟨b6, _ | ⟨b7, _ | ⟨b8, _ | ⟨b9, rest⟩⟩⟩⟩⟩⟩⟩⟩⟩ <;>
    simp [matchDateTok, h]

theorem findAllGo_zero_not_digit (c : Char) (cs : List Char) (h : isDigitCh c = false) :
    findAllGo 0 (c :: cs) = findAllGo 0 cs := by
  simp [findAllGo, isDateTokenAt, matchDateTok_head_not_digit c cs h]

theorem findAllGo_skip (pre rest : List Char) :
    findAllGo pre.length (pre ++ rest) = findAllGo 0 rest := by
  induction pre with
  | nil => rfl
  | cons c cs ih => simpa [findAllGo] using ih

theorem findAllGo_zero_token (t rest : List Char) (h : isDateTokenShape t = true) :
    findAllGo 0 (t ++ rest) = t :: findAllGo 0 rest := by
  obtain ⟨a1, a2, a3, a4, a5, a6, a7, a8, ht, h1, h2, h3, h4, h5, h6, h7, h8⟩ :=
    dateTokenShape_elim t h
  subst ht
  have htok : isDateTokenAt ([a1, a2, '/', a3, a4, '/', a5, a6, a7, a8] ++ rest) = true := by
    simp [isDateTokenAt, matchDateTok, h1, h2, h3, h4, h5, h6, h7, h8]
  have hskip := findAllGo_skip [a2, '/', a3, a4, '/', a5, a6, a7, a8] rest
  have hlen9 : ([a2, '/', a3, a4, '/', a5, a6, a7, a8] : List Char).length = 9 := rfl
  rw [hlen9] at hskip
  have htake : ([a1, a2, '/', a3, a4, '/', a5, a6, a7, a8] ++ rest).take 10 =
      [a1, a2, '/', a3, a4, '/', a5, a6, a7, a8] := List.take_left' rfl
  simp only [List.cons_append, List.nil_append] at htok hskip htake ⊢
  rw [findAllGo, htake, hskip]
  simp [htok]

theorem dropWhile_cons_neg (p : Char → Bool) (c : Char) (cs : List Char) (h : p c = false) :
    (c :: cs).dropWhile p = c :: cs := by
  simp [List.dropWhile, h]

theorem pyStrip_eq_self (l : List Char)
    (h1 : ∀ c, l.head? = some c → pyIsSpace c = false)
    (h2 : ∀ c, l.getLast? = some c → pyIsSpace c = false) :
    pyStrip l = l := by
  cases l with
  | nil => rfl
  | cons c cs =>
    unfold pyStrip
    rw [dropWhile_cons_neg pyIsSpace c cs (h1 c rfl)]
    cases hrev : (c :: cs).reverse with
    | nil => simp at hrev
    | cons d ds =>
      have hd : (c :: cs).getLast? = some d := by
        rw [List.getLast?_eq_head?_reverse, hrev]
        rfl
      rw [dropWhile_cons_neg pyIsSpace d ds (h2 d hd), ← hrev, List.reverse_reverse]

theorem pyIsSpace_digit (c : Char) (h : isDigitCh c = true) : pyIsSpace c = false := by
  simp only [isDigitCh, decide_eq_true_eq] at h
  simp only [pyIsSpace, decide_eq_false_iff_not]
  omega

theorem pyLowerChar_digit (c : Char) (h : isDigitCh c = true) : pyLowerChar c = c := by
  simp only [isDigitCh, decide_eq_true_eq] at h
  unfold pyLowerChar
  rw [if_neg (by omega), if_neg (by omega)]

theorem digit_beq_false (c x : Char) (h : isDigitCh c = true) (hx : isDigitCh x = false) :
    (c == x) = false := by
  refine beq_eq_false_iff_ne.mpr ?_
  intro he
  subst he
  rw [h] at hx
  exact Bool.noConfusion hx

theorem pyStartsWith_append_self (p l : List Char) : pyStartsWith (p ++ l) p = true := by
  induction p with
  | nil => simp [pyStartsWith]
  | cons c cs ih => simp [pyStartsWith, ih]

theorem containsSub_append_mid (sep l r : List Char) (hsep : sep ≠ []) :
    containsSub sep (l ++ sep ++ r) = true := by
  induction l with
  | nil =>
    cases sep with
    | nil => exact absurd rfl hsep
    | cons c0 cs0 =>
      simp only [List.nil_append, List.cons_append, containsSub]
      simp [pyStartsWith, pyStartsWith_append_self]
  | cons c l' ih =>
    have hcons : (c :: l') ++ sep ++ r = c :: (l' ++ sep ++ r) := by simp
    rw [hcons]
    show (pyStartsWith (c :: (l' ++ sep ++ r)) sep || containsSub sep (l' ++ sep ++ r)) = true
    rw [ih, Bool.or_true]

theorem pySplitGo_skip_all (sep rest : List Char) (t : List Char)
    (h : ∀ t1 t2, t = t1 ++ t2 → t2 ≠ [] → pyStartsWith (t2 ++ rest) sep = false) :
    ∀ acc, pySplitGo sep 0 acc (t ++ rest) = pySplitGo sep 0 (t.reverse ++ acc) rest := by
  induction t with
  | nil => intro acc; simp
  | cons c cs ih =>
    intro acc
    have h0 : pyStartsWith ((c :: cs) ++ rest) sep = false := h [] (c :: cs) rfl (by simp)
    simp only [List.cons_append] at h0 ⊢
    rw [pySplitGo, if_neg (by simp [h0])]
    rw [ih (fun t1 t2 ht h2 => h (c :: t1) t2 (by simp [ht]) h2) (c :: acc)]
    simp

theorem pySplitGo_skipN (sep acc : List Char) (pre rest : List Char) :
    pySplitGo sep pre.length acc (pre ++ rest) = pySplitGo sep 0 acc rest := by
  induction pre with
  | nil => rfl
  | cons c cs ih => simpa [pySplitGo] using ih

theorem pySplitGo_no_sep_total (sep : List Char) (u : List Char)
    (h : ∀ t1 t2, u = t1 ++ t2 → t2 ≠ [] → pyStartsWith t2 sep = false) :
    ∀ acc, pySplitGo sep 0 acc u = [acc.reverse ++ u] := by
  induction u with
  | nil => intro acc; simp [pySplitGo]
  | cons c cs ih =>
    intro acc
    have h0 : pyStartsWith (c :: cs) sep = false := h [] (c :: cs) rfl (by simp)
    simp only [pySplitGo, h0, Bool.false_eq_true, if_false]
    rw [ih (fun t1 t2 ht h2 => h (c :: t1) t2 (by simp [ht]) h2) (c :: acc)]
    simp

theorem noSepStart (u : List Char) (hu : ∀ c ∈ u, isDigitCh c = true ∨ c = '/') :
    ∀ t1 t2 rest, u = t1 ++ t2 → t2 ≠ [] →
      pyStartsWith (t2 ++ rest) " a ".data = false := by
  intro t1 t2 rest ht12 hne
  cases t2 with
  | nil => exact absurd rfl hne
  | cons x t2' =>
    have hx : x ∈ u := by
      subst ht12
      exact List.mem_append_right _ (List.mem_cons_self _ _)
    have hxs : (x == ' ') = false := by
      rcases hu x hx with hd | rfl
      · exact digit_beq_false x ' ' hd (by decide)
      · decide
    simp [pyStartsWith, hxs, show (" a ".data : List Char) = [' ', 'a', ' '] from rfl]

theorem tokenChars (t : List Char) (h : isDateTokenShape t = true) :
    ∀ c ∈ t, isDigitCh c = true ∨ c = '/' := by
  obtain ⟨a1, a2, a3, a4, a5, a6, a7, a8, htt, p1, p2, p3, p4, p5, p6, p7, p8⟩ :=
    dateTokenShape_elim t h
  subst htt
  intro c hc
  simp only [List.mem_cons, List.not_mem_nil, or_false] at hc
  rcases hc with rfl | rfl | rfl | rfl | rfl | rfl | rfl | rfl | rfl | rfl
  · exact Or.inl p1
  · exact Or.inl p2
  · exact Or.inr rfl
  · exact Or.inl p3
  · exact Or.inl p4
  · exact Or.inr rfl
  · exact Or.inl p5
  · exact Or.inl p6
  · exact Or.inl p7
  · exact Or.inl p8

theorem pySplit_token_range (t s : List Char)
    (ht : isDateTokenShape t = true) (hs : isDateTokenShape s = true) :
    pySplit " a ".data (t ++ " a ".data ++ s) = [t, s] := by
  unfold pySplit
  rw [List.append_assoc]
  rw [pySplitGo_skip_all " a ".data (" a ".data ++ s) t
    (fun t1 t2 h12 hne => noSepStart t (tokenChars t ht) t1 t2 _ h12 hne) []]
  have hstep : (" a ".data : List Char) ++ s = ' ' :: ('a' :: (' ' :: s)) := by
    simp [show (" a ".data : List Char) = [' ', 'a', ' '] from rfl]
  rw [hstep]
  have hhit : pyStartsWith (' ' :: ('a' :: (' ' :: s))) " a ".data = true := by
    rw [← hstep]
    exact pyStartsWith_append_self " a ".data s
  simp only [pySplitGo, hhit, if_true]
  rw [pySplitGo_no_sep_total [' ', 'a', ' '] s
    (fun t1 t2 h12 hne => by
      have hns := noSepStart s (tokenChars s hs) t1 t2 [] h12 hne
      simpa using hns) []]
  simp

theorem dateTokenShape_head (t : List Char) (h : isDateTokenShape t = true) :
    ∃ c cs, t = c :: cs ∧ isDigitCh c = true := by
  obtain ⟨a1, a2, a3, a4, a5, a6, a7, a8, htt, p1, _⟩ := dateTokenShape_elim t h
  exact ⟨a1, _, htt, p1⟩

theorem dateTokenShape_last (t : List Char) (h : isDateTokenShape t = true) :
    ∃ u c, t = u ++ [c] ∧ isDigitCh c = true := by
  obtain ⟨a1, a2, a3, a4, a5, a6, a7, a8, htt, p1, p2, p3, p4, p5, p6, p7, p8⟩ :=
    dateTokenShape_elim t h
  subst htt
  exact ⟨[a1, a2, '/', a3, a4, '/', a5, a6, a7], a8, by simp, p8⟩

theorem strip_token_block (t mid s : List Char)
    (ht : isDateTokenShape t = true) (hs : isDateTokenShape s = true) :
    pyStrip (t ++ mid ++ s) = t ++ mid ++ s := by
  obtain ⟨c, cs, hcons, hcd⟩ := dateTokenShape_head t ht
  obtain ⟨u, z, hconc, hzd⟩ := dateTokenShape_last s hs
  apply pyStrip_eq_self
  · intro x hx
    subst hcons
    simp only [List.cons_append, List.head?, Option.some.injEq] at hx
    subst hx
    exact pyIsSpace_digit _ hcd
  · intro x hx
    subst hconc
    rw [show t ++ mid ++ (u ++ [z]) = (t ++ mid ++ u) ++ [z] by simp, List.getLast?_concat] at hx
    have hxz : z = x := by simpa using hx
    rw [← hxz]
    exact pyIsSpace_digit _ hzd

theorem entre_false_token (t rest : List Char) (ht : isDateTokenShape t = true) :
    pyStartsWith (pyLower (t ++ rest)) "entre".data = false := by
  obtain ⟨c, cs, hcons, hcd⟩ := dateTokenShape_head t ht
  subst hcons
  have hlc : pyLowerChar c = c := pyLowerChar_digit c hcd
  have hbeq : (c == 'e') = false := digit_beq_false c 'e' hcd (by decide)
  simp [pyLower, pyStartsWith, hlc, hbeq, show ("entre".data : List Char) = ['e','n','t','r','e'] from rfl]

/-- C4 (amended): a `DD/MM/YYYY`-shaped token with an out-of-range day or
month parses to null in its own position only, not failing the whole
block: a two-date `a`-range whose first token is valid and whose second
token is shape-valid but calendar-invalid parses to `(start, null)` — the
parsed start date is kept. -/
theorem claim_C4_amended (t s : List Char) (d : String)
    (ht : isDateTokenShape t = true) (hs : isDateTokenShape s = true)
    (hgood : to_iso t = some d) (hbad : to_iso s = none) :
    parse_date_block (t ++ " a ".data ++ s) = (some d, none) := by
  have hstrip := strip_token_block t " a ".data s ht hs
  have hentre := entre_false_token t (" a ".data ++ s) ht
  have hcontains : containsSub " a ".data (t ++ " a ".data ++ s) = true :=
    containsSub_append_mid " a ".data t s (by decide)
  have hsplit := pySplit_token_range t s ht hs
  have hentre2 : pyStartsWith (pyLower (t ++ " a ".data ++ s)) "entre".data = false := by
    rw [List.append_assoc]
    exact hentre
  unfold parse_date_block
  dsimp only
  rw [hstrip]
  simp only [hentre2, Bool.false_eq_true, if_false, hcontains, if_true, hsplit, hgood, hbad]

theorem findAllGo_skip_nondigits (mid rest : List Char)
    (hmid : ∀ c ∈ mid, isDigitCh c = false) :
    findAllGo 0 (mid ++ rest) = findAllGo 0 rest := by
  induction mid with
  | nil => rfl
  | cons c cs ih =>
    rw [List.cons_append, findAllGo_zero_not_digit c _ (hmid c (List.mem_cons_self c cs))]
    exact ih (fun x hx => hmid x (List.mem_cons_of_mem c hx))

theorem findall_entre_two (t1 t2 mid : List Char)
    (h1 : isDateTokenShape t1 = true) (h2 : isDateTokenShape t2 = true)
    (hmid : ∀ c ∈ mid, isDigitCh c = false) :
    reFindAllDates ("Entre ".data ++ t1 ++ mid ++ t2) = [t1, t2] := by
  unfold reFindAllDates
  rw [show "Entre ".data ++ t1 ++ mid ++ t2 = "Entre ".data ++ (t1 ++ (mid ++ t2)) from by simp]
  rw [findAllGo_skip_nondigits "Entre ".data _ (by decide)]
  rw [findAllGo_zero_token t1 (mid ++ t2) h1]
  rw [findAllGo_skip_nondigits mid _ hmid]
  have hlast := findAllGo_zero_token t2 [] h2
  rw [List.append_nil] at hlast
  rw [hlast]
  rfl

theorem findall_entre_one (t1 : List Char) (h1 : isDateTokenShape t1 = true) :
    reFindAllDates ("Entre ".data ++ t1) = [t1] := by
  unfold reFindAllDates
  rw [findAllGo_skip_nondigits "Entre ".data _ (by decide)]
  have hlast := findAllGo_zero_token t1 [] h1
  rw [List.append_nil] at hlast
  rw [hlast]
  rfl

theorem entre_startsWith (X : List Char) :
    pyStartsWith (pyLower ("Entre ".data ++ X)) "entre".data = true := by
  have h1 : pyLower ("Entre ".data ++ X) = "entre".data ++ (' ' :: pyLower X) := by
    simp only [pyLower, List.map_append]
    rw [show (List.map pyLowerChar "Entre ".data) = "entre".data ++ [' '] from by decide]
    simp
  rw [h1, pyStartsWith_append_self]

theorem strip_entre_last (pre t : List Char) (ht : isDateTokenShape t = true)
    (hpre : pre.head? = some 'E') :
    pyStrip (pre ++ t) = pre ++ t := by
  obtain ⟨u, z, hconc, hzd⟩ := dateTokenShape_last t ht
  apply pyStrip_eq_self
  · intro x hx
    cases pre with
    | nil => simp at hpre
    | cons c cs =>
      have hc : c = 'E' := by simpa using hpre
      subst hc
      have hx2 : 'E' = x := by simpa using hx
      rw [← hx2]
      decide
  · intro x hx
    subst hconc
    rw [show pre ++ (u ++ [z]) = (pre ++ u) ++ [z] by simp, List.getLast?_concat] at hx
    have hxz : z = x := by simpa using hx
    rw [← hxz]
    exact pyIsSpace_digit _ hzd

theorem parse_entre_two (t1 t2 mid : List Char)
    (h1 : isDateTokenShape t1 = true) (h2 : isDateTokenShape t2 = true)
    (hmid : ∀ c ∈ mid, isDigitCh c = false) :
    parse_date_block ("Entre ".data ++ t1 ++ mid ++ t2) = (to_iso t1, to_iso t2) := by
  have hstrip : pyStrip ("Entre ".data ++ t1 ++ mid ++ t2) = "Entre ".data ++ t1 ++ mid ++ t2 :=
    strip_entre_last ("Entre ".data ++ t1 ++ mid) t2 h2
      (by simp [show ("Entre ".data : List Char) = 'E' :: "ntre ".data from rfl])
  have hstart : pyStartsWith (pyLower ("Entre ".data ++ t1 ++ mid ++ t2)) "entre".data = true := by
    rw [show "Entre ".data ++ t1 ++ mid ++ t2 = "Entre ".data ++ (t1 ++ (mid ++ t2)) from by simp]
    exact entre_startsWith _
  have hfind := findall_entre_two t1 t2 mid h1 h2 hmid
  unfold parse_date_block
  dsimp only
  rw [hstrip]
  simp only [hstart, if_true, hfind]

theorem parse_entre_one (t1 : List Char) (h1 : isDateTokenShape t1 = true) :
    parse_date_block ("Entre ".data ++ t1) = (to_iso t1, none) := by
  have hstrip : pyStrip ("Entre ".data ++ t1) = "Entre ".data ++ t1 :=
    strip_entre_last "Entre ".data t1 h1 rfl
  have hstart := entre_startsWith t1
  have hfind := findall_entre_one t1 h1
  unfold parse_date_block
  dsimp only
  rw [hstrip]
  simp only [hstart, if_true, hfind]

/-- C8: for all valid date tokens (a `DD/MM/YYYY`-shaped token accepted by
`to_iso`), an "Entre D1 e D2" block and an "Entre D1 a D2" block parse to
the same range `(iso D1, iso D2)`, and an "Entre D1" block with a single
date parses to the open-ended range `(iso D1, null)` rather than failing. -/
theorem claim_C8_entre_ranges (t1 t2 : List Char) (d1 d2 : String)
    (h1 : isDateTokenShape t1 = true) (h2 : isDateTokenShape t2 = true)
    (hd1 : to_iso t1 = some d1) (hd2 : to_iso t2 = some d2) :
    parse_date_block ("Entre ".data ++ t1 ++ " e ".data ++ t2) = (some d1, some d2) ∧
    parse_date_block ("Entre ".data ++ t1 ++ " a ".data ++ t2) = (some d1, some d2) ∧
    parse_date_block ("Entre ".data ++ t1) = (some d1, none) := by
  refine ⟨?_, ?_, ?_⟩
  · rw [parse_entre_two t1 t2 " e ".data h1 h2 (by decide), hd1, hd2]
  · rw [parse_entre_two t1 t2 " a ".data h1 h2 (by decide), hd1, hd2]
  · rw [parse_entre_one t1 h1, hd1]

/-- Witness for C8 at the spec's concrete dates. -/
theorem claim_C8_witness :
    parse_date_block ("Entre ".data ++ "10/02/2026".data ++ " e ".data ++ "20/02/2026".data) =
      (some "2026-02-10", some "2026-02-20") ∧
    parse_date_block ("Entre ".data ++ "10/02/2026".data ++ " a ".data ++ "20/02/2026".data) =
      (some "2026-02-10", some "2026-02-20") ∧
    parse_date_block ("Entre ".data ++ "10/02/2026".data) = (some "2026-02-10", none) :=
  claim_C8_entre_ranges "10/02/2026".data "20/02/2026".data "2026-02-10" "2026-02-20"
    (by decide) (by decide) (by decide) (by decide)

/-- C4 (counterexample to the claim as stated): a two-date range block
whose second token is calendar-invalid is not rejected as a whole; it
parses to a partial result carrying exactly the parsed start date. -/
theorem claim_C4_counterexample :
    parse_date_block "10/02/2026 a 99/99/9999".data = (some "2026-02-10", none) := by
  decide

/-- Witness for the amended C4 at the claim's own example block. -/
theorem claim_C4_witness :
    parse_date_block ("10/02/2026".data ++ " a ".data ++ "99/99/9999".data) =
      (some "2026-02-10", none) :=
  claim_C4_amended "10/02/2026".data "99/99/9999".data "2026-02-10"
    (by decide) (by decide) (by decide) (by decide)
